import Mathlib

/-!
Verification of the market-fetching core of `src/clob/fetch_markets.py`:
the pagination loop (`fetch_all_markets`), the current-market filter
(`filter_current_markets`), the name extractor (`extract_market_names`)
and the exit-code logic of `main`.

Python records are JSON-compatible values; we embed them as `JsonValue`.
Python truthiness, `dict.get`, `str.strip`, `list.extend` are modelled by
`truthy`, `List.lookup`/`Option.getD`, `pyStrip`, `pyExtend` below.
-/

/-- A JSON-compatible Python value: `None`, `bool`, number, string, list,
or dict (a finite mapping, embedded as an association list of string keys;
Python dicts have unique keys, and lookup takes the first binding).
Numbers are embedded as integers; no claim depends on float behaviour. -/
inductive JsonValue where
  | null : JsonValue
  | bool (b : Bool) : JsonValue
  | num (n : Int) : JsonValue
  | str (s : String) : JsonValue
  | arr (xs : List JsonValue) : JsonValue
  | obj (fs : List (String × JsonValue)) : JsonValue

/-- Python truthiness of a JSON value: `None`, `False`, `0`, `""`, `[]`
and `{}` are falsy, everything else is truthy. -/
def truthy : JsonValue → Bool
  | .null => false
  | .bool b => b
  | .num n => n != 0
  | .str s => s != ""
  | .arr xs => !xs.isEmpty
  | .obj fs => !fs.isEmpty

mutual

/-- Structural equality test on JSON values (Python `==` on the values the
program compares, which are cursor strings). -/
def jeq : JsonValue → JsonValue → Bool
  | .null, .null => true
  | .bool a, .bool b => a == b
  | .num a, .num b => a == b
  | .str a, .str b => a == b
  | .arr xs, .arr ys => jeqList xs ys
  | .obj fs, .obj gs => jeqFields fs gs
  | _, _ => false

def jeqList : List JsonValue → List JsonValue → Bool
  | [], [] => true
  | x :: xs, y :: ys => jeq x y && jeqList xs ys
  | _, _ => false

def jeqFields : List (String × JsonValue) → List (String × JsonValue) → Bool
  | [], [] => true
  | (k, v) :: fs, (l, w) :: gs => k == l && jeq v w && jeqFields fs gs
  | _, _ => false

end

/-- ASCII whitespace stripped by Python `str.strip()` (space, tab, newline,
carriage return, vertical tab, form feed). Other Unicode whitespace does
not occur in the claims and is left out of the model. -/
def isSpaceChar (c : Char) : Bool :=
  c = ' ' || c = '\t' || c = '\n' || c = '\r' || c = '\x0b' || c = '\x0c'

/-- Strip leading and trailing whitespace from a character list. -/
def pyStripChars (l : List Char) : List Char :=
  ((l.dropWhile isSpaceChar).reverse.dropWhile isSpaceChar).reverse

/-- Python `str.strip()`: remove leading and trailing whitespace. -/
def pyStrip (s : String) : String :=
  String.mk (pyStripChars s.data)

/-- Model of `filter_current_markets` (fetch_markets.py lines 75-103): keep records
that are dicts whose `closed` and `archived` values are both falsy, the
lookups defaulting to `True` when the field is missing
(`market.get("closed", True)`); the Python test is
`not is_closed and not is_archived`, i.e. truthiness, not comparison
with `False`. -/
def filter_current_markets : List JsonValue → List JsonValue
  | [] => []
  | m :: rest =>
    match m with
    | .obj fs =>
      let is_closed := (fs.lookup "closed").getD (.bool true)
      let is_archived := (fs.lookup "archived").getD (.bool true)
      if !truthy is_closed && !truthy is_archived then
        m :: filter_current_markets rest
      else
        filter_current_markets rest
    | _ => filter_current_markets rest

/-- The name-candidate fields, in the code's preference order
(fetch_markets.py line 124). -/
def nameFields : List String :=
  ["question", "title", "name", "description", "market_slug"]

/-- The inner field loop of `extract_market_names` (lines 123-128): the
first field whose value is a string with non-empty `strip()` yields that
stripped value (`isinstance(value, str) and value.strip()`). -/
def findName : List String → List (String × JsonValue) → Option String
  | [], _ => none
  | f :: rest, fs =>
    match fs.lookup f with
    | some (.str s) =>
      if pyStrip s ≠ "" then some (pyStrip s) else findName rest fs
    | _ => findName rest fs

/-- Model of `extract_market_names` (lines 106-133): skip non-dict elements, run the
field-preference scan, and append the name when it is truthy
(`if name:`). -/
def extract_market_names : List JsonValue → List String
  | [] => []
  | m :: rest =>
    match m with
    | .obj fs =>
      match findName nameFields fs with
      | some n => if n ≠ "" then n :: extract_market_names rest else extract_market_names rest
      | none => extract_market_names rest
    | _ => extract_market_names rest

/-- Result of one `client.get_markets(next_cursor=cursor)` call: either a
returned JSON value or a raised `Exception` (network/deserialization
fault), which line 67's `except Exception` catches. -/
inductive PageResult where
  | ok (resp : JsonValue) : PageResult
  | fault : PageResult

/-- A transport: the response to the `k`-th call (0-based), made with the
given cursor. In `fetch_all_markets` the call index always equals the
current `page_count`. -/
def Transport : Type := Nat → JsonValue → PageResult

/-- Extraction `isinstance(response, dict) and "data" in response` followed by
`response["data"]` (lines 48-49). -/
def dataOf : JsonValue → Option JsonValue
  | .obj fs => fs.lookup "data"
  | _ => none

/-- Lookup `response.get("next_cursor")` (line 53), on the dict branch. -/
def nextCursorOf : JsonValue → Option JsonValue
  | .obj fs => fs.lookup "next_cursor"
  | _ => none

/-- The element sequence Python iterates when a value is passed to
`list.extend`: lists yield their elements, strings their one-character
substrings, dicts their keys; other values raise `TypeError`. -/
def pyItems : JsonValue → Option (List JsonValue)
  | .arr xs => some xs
  | .str s => some (s.data.map fun c => .str (String.mk [c]))
  | .obj fs => some (fs.map fun p => .str p.1)
  | _ => none

/-- Model of `all_markets.extend(markets)` (line 50): append the iterated elements,
or fail with `TypeError` (caught by line 67, ending the loop). -/
def pyExtend (acc : List JsonValue) (v : JsonValue) : Option (List JsonValue) :=
  (pyItems v).map (fun xs => acc ++ xs)

/-- The initial cursor sentinel `"MA=="` (line 38). -/
def initCursor : JsonValue := .str "MA=="

/-- The `while page_count < max_pages` loop of `fetch_all_markets`
(lines 43-69), with `fuel = max_pages - page_count`. Returns the
accumulated `all_markets` plus the number of `get_markets` calls made.
A transport fault, a non-dict or `data`-less response, or a `TypeError`
from `extend` ends the loop with the records accumulated so far
(lines 63-69); otherwise the page's records are appended, and the loop
ends after this page when `next_cursor` is absent or falsy or equal to
the cursor just used (`if not next_cursor or next_cursor == cursor`,
line 59). -/
def fetchLoop (transport : Transport) :
    Nat → JsonValue → Nat → List JsonValue → List JsonValue × Nat
  | 0, _, _, acc => (acc, 0)
  | fuel + 1, cursor, page_count, acc =>
    match transport page_count cursor with
    | .fault => (acc, 1)
    | .ok resp =>
      match dataOf resp with
      | none => (acc, 1)
      | some d =>
        match pyExtend acc d with
        | none => (acc, 1)
        | some acc' =>
          match nextCursorOf resp with
          | none => (acc', 1)
          | some nc =>
            if !truthy nc || jeq nc cursor then (acc', 1)
            else
              let r := fetchLoop transport fuel nc (page_count + 1) acc'
              (r.1, r.2 + 1)

/-- Model of `fetch_all_markets(api_url, max_pages)` (lines 25-72), with the client
abstracted as a transport: run the pagination loop from the sentinel
cursor with empty accumulator and return the collected records. -/
def fetch_all_markets (transport : Transport) (max_pages : Nat) : List JsonValue :=
  (fetchLoop transport max_pages initCursor 0 []).1

/-- Number of page fetches (`get_markets` calls) `fetch_all_markets`
performs. -/
def fetchCalls (transport : Transport) (max_pages : Nat) : Nat :=
  (fetchLoop transport max_pages initCursor 0 []).2

/-- Outcome of an effectful Python step: a value, a `KeyboardInterrupt`,
or any other `Exception`. -/
inductive PyOutcome (α : Type) where
  | ok (a : α) : PyOutcome α
  | interrupt : PyOutcome α
  | exn : PyOutcome α

/-- The `try` body of `main` (lines 195-235), with the fetch call and the
two `save_json` calls abstracted as outcomes (`save1` the record file,
`save2` the names file): empty fetch returns 1; in `--current` mode an
empty filtered set returns 1; otherwise both saves run and 0 is
returned; an interrupt or exception raised by a step propagates. -/
def mainBody (fetchOutcome : PyOutcome (List JsonValue)) (current : Bool)
    (save1 save2 : PyOutcome Unit) : PyOutcome Int :=
  match fetchOutcome with
  | .interrupt => .interrupt
  | .exn => .exn
  | .ok all_markets =>
    if all_markets.isEmpty then .ok 1
    else
      let proceed : List JsonValue → PyOutcome Int := fun _records =>
        match save1 with
        | .ok _ =>
          match save2 with
          | .ok _ => .ok 0
          | .interrupt => .interrupt
          | .exn => .exn
        | .interrupt => .interrupt
        | .exn => .exn
      if current then
        let current_markets := filter_current_markets all_markets
        if current_markets.isEmpty then .ok 1
        else proceed current_markets
      else proceed all_markets

/-- Model of `main` (lines 150-244): run the body under the handlers
`except KeyboardInterrupt: return 130` and `except Exception: return 1`
(lines 237-244). -/
def mainFn (fetchOutcome : PyOutcome (List JsonValue)) (current : Bool)
    (save1 save2 : PyOutcome Unit) : Int :=
  match mainBody fetchOutcome current save1 save2 with
  | .ok code => code
  | .interrupt => 130
  | .exn => 1

/-- Whether a value is a mapping (a Python dict): the shape the per-record
`isinstance(market, dict)` guards test. -/
def isMapping : JsonValue → Bool
  | .obj _ => true
  | _ => false

/-- The per-record test `filter_current_markets` actually applies: the
record is a dict and both `closed` and `archived` look up to a falsy
value (missing fields default to `True`, hence truthy). -/
def currentRecord : JsonValue → Bool
  | .obj fs =>
    !truthy ((fs.lookup "closed").getD (.bool true)) &&
      !truthy ((fs.lookup "archived").getD (.bool true))
  | _ => false

/-- The spec's classification predicate, following its words: a record is
current iff its `closed` field is present and equals `false` and its
`archived` field is present and equals `false`. Stated for comparison
with the code's `currentRecord`. -/
def specCurrentRecord : JsonValue → Bool
  | .obj fs =>
    (match fs.lookup "closed" with
      | some v => jeq v (.bool false)
      | none => false) &&
      (match fs.lookup "archived" with
        | some v => jeq v (.bool false)
        | none => false)
  | _ => false

/-- The usable-name test for one field value: a string that is non-empty
after trimming, contributing its trimmed form. -/
def goodValue : Option JsonValue → Option String
  | some (.str s) => if pyStrip s ≠ "" then some (pyStrip s) else none
  | _ => none

/-- The name one record contributes to `extract_market_names`, if any. -/
def recordName : JsonValue → Option String
  | .obj fs => findName nameFields fs
  | _ => none

/-! ### Equality test soundness -/

mutual

theorem jeq_iff : ∀ a b : JsonValue, jeq a b = true ↔ a = b
  | .null, b => by cases b <;> simp [jeq]
  | .bool a, b => by cases b <;> simp [jeq]
  | .num a, b => by cases b <;> simp [jeq]
  | .str a, b => by cases b <;> simp [jeq]
  | .arr xs, b => by
      cases b <;> simp [jeq]
      exact jeqList_iff xs _
  | .obj fs, b => by
      cases b <;> simp [jeq]
      exact jeqFields_iff fs _

theorem jeqList_iff : ∀ xs ys : List JsonValue, jeqList xs ys = true ↔ xs = ys
  | [], ys => by cases ys <;> simp [jeqList]
  | x :: xs, ys => by
      cases ys with
      | nil => simp [jeqList]
      | cons y ys => simp [jeqList, jeq_iff x y, jeqList_iff xs ys]

theorem jeqFields_iff :
    ∀ fs gs : List (String × JsonValue), jeqFields fs gs = true ↔ fs = gs
  | [], gs => by cases gs <;> simp [jeqFields]
  | (k, v) :: fs, gs => by
      cases gs with
      | nil => simp [jeqFields]
      | cons g gs =>
          cases g with
          | mk l w => simp [jeqFields, jeq_iff v w, jeqFields_iff fs gs, and_assoc]

end

theorem jeq_self (a : JsonValue) : jeq a a = true := (jeq_iff a a).mpr rfl

theorem jeq_eq_false_of_ne {a b : JsonValue} (h : a ≠ b) : jeq a b = false := by
  cases hj : jeq a b with
  | false => rfl
  | true => exact absurd ((jeq_iff a b).mp hj) h

/-! ### Whitespace stripping -/

theorem dropWhile_head_false {α : Type} (p : α → Bool) :
    ∀ (l : List α) (a : α) (rest : List α), l.dropWhile p = a :: rest → p a = false := by
  intro l
  induction l with
  | nil => intro a rest h; exact absurd h (by simp)
  | cons b t ih =>
      intro a rest h
      by_cases hb : p b
      · rw [List.dropWhile_cons_of_pos hb] at h
        exact ih a rest h
      · rw [List.dropWhile_cons_of_neg hb] at h
        cases h
        simpa using hb

theorem dropWhile_idem {α : Type} (p : α → Bool) (l : List α) :
    (l.dropWhile p).dropWhile p = l.dropWhile p := by
  cases h : l.dropWhile p with
  | nil => rfl
  | cons a rest =>
      rw [List.dropWhile_cons_of_neg (by simp [dropWhile_head_false p l a rest h])]

theorem dropWhile_append_exists {α : Type} (p : α → Bool) (l : List α) :
    ∃ u, u ++ l.dropWhile p = l := by
  induction l with
  | nil => exact ⟨[], rfl⟩
  | cons a t ih =>
      by_cases ha : p a
      · obtain ⟨u, hu⟩ := ih
        exact ⟨a :: u, by simp [List.dropWhile_cons_of_pos ha, hu]⟩
      · exact ⟨[], by simp [List.dropWhile_cons_of_neg ha]⟩

theorem pyStripChars_dropWhile (l : List Char) :
    (pyStripChars l).dropWhile isSpaceChar = pyStripChars l := by
  cases hr : pyStripChars l with
  | nil => rfl
  | cons a t =>
      obtain ⟨u, hu⟩ :=
        dropWhile_append_exists isSpaceChar (l.dropWhile isSpaceChar).reverse
      have hA : l.dropWhile isSpaceChar = a :: (t ++ u.reverse) := by
        have := congrArg List.reverse hu
        simp only [List.reverse_append, List.reverse_reverse] at this
        rw [← this]
        unfold pyStripChars at hr
        rw [hr]
        simp
      rw [List.dropWhile_cons_of_neg
        (by simp [dropWhile_head_false isSpaceChar l a _ hA])]

theorem pyStripChars_idem (l : List Char) :
    pyStripChars (pyStripChars l) = pyStripChars l := by
  calc pyStripChars (pyStripChars l)
      = (((pyStripChars l).dropWhile isSpaceChar).reverse.dropWhile
          isSpaceChar).reverse := rfl
    _ = ((pyStripChars l).reverse.dropWhile isSpaceChar).reverse := by
          rw [pyStripChars_dropWhile]
    _ = (((l.dropWhile isSpaceChar).reverse.dropWhile
          isSpaceChar).reverse.reverse.dropWhile isSpaceChar).reverse := rfl
    _ = ((l.dropWhile isSpaceChar).reverse.dropWhile isSpaceChar).reverse := by
          rw [List.reverse_reverse, dropWhile_idem]
    _ = pyStripChars l := rfl

theorem pyStrip_idem (s : String) : pyStrip (pyStrip s) = pyStrip s := by
  show String.mk (pyStripChars (String.mk (pyStripChars s.data)).data) = _
  rw [show (String.mk (pyStripChars s.data)).data = pyStripChars s.data from rfl,
    pyStripChars_idem]
  rfl

/-! ### Classifier -/

theorem filter_current_eq_filter (l : List JsonValue) :
    filter_current_markets l = l.filter currentRecord := by
  induction l with
  | nil => rfl
  | cons m rest ih =>
      cases m with
      | obj fs =>
          simp only [filter_current_markets, List.filter_cons, currentRecord]
          by_cases h : (!truthy ((fs.lookup "closed").getD (JsonValue.bool true)) &&
              !truthy ((fs.lookup "archived").getD (JsonValue.bool true))) = true
          · rw [if_pos h, if_pos h, ih]
          · rw [if_neg h, if_neg h, ih]
      | null => simpa [filter_current_markets, List.filter_cons, currentRecord] using ih
      | bool b => simpa [filter_current_markets, List.filter_cons, currentRecord] using ih
      | num n => simpa [filter_current_markets, List.filter_cons, currentRecord] using ih
      | str s => simpa [filter_current_markets, List.filter_cons, currentRecord] using ih
      | arr xs => simpa [filter_current_markets, List.filter_cons, currentRecord] using ih

/-! ### Extractor -/

theorem findName_some {fields : List String} {fs : List (String × JsonValue)}
    {n : String} (h : findName fields fs = some n) : n ≠ "" ∧ pyStrip n = n := by
  induction fields with
  | nil => exact absurd h (by simp [findName])
  | cons f rest ih =>
      rw [findName] at h
      split at h
      · split at h
        next hs =>
          cases h
          exact ⟨hs, pyStrip_idem _⟩
        next hs => exact ih h
      · exact ih h

theorem extract_eq_filterMap (l : List JsonValue) :
    extract_market_names l = l.filterMap recordName := by
  induction l with
  | nil => rfl
  | cons m rest ih =>
      cases m with
      | obj fs =>
          cases hf : findName nameFields fs with
          | none => simp [extract_market_names, List.filterMap_cons, recordName, hf, ih]
          | some n =>
              have hn := (findName_some hf).1
              simp [extract_market_names, List.filterMap_cons, recordName, hf, hn, ih]
      | null => simp [extract_market_names, List.filterMap_cons, recordName, ih]
      | bool b => simp [extract_market_names, List.filterMap_cons, recordName, ih]
      | num n => simp [extract_market_names, List.filterMap_cons, recordName, ih]
      | str s => simp [extract_market_names, List.filterMap_cons, recordName, ih]
      | arr xs => simp [extract_market_names, List.filterMap_cons, recordName, ih]

theorem findName_eq_findSome (fields : List String) (fs : List (String × JsonValue)) :
    findName fields fs = fields.findSome? (fun f => goodValue (fs.lookup f)) := by
  induction fields with
  | nil => rfl
  | cons f rest ih =>
      rw [findName, List.findSome?_cons]
      cases hv : fs.lookup f with
      | none => simpa [goodValue] using ih
      | some v =>
          cases v with
          | str s =>
              by_cases hs : pyStrip s ≠ ""
              · simp [goodValue, hs]
              · simpa [goodValue, hs] using ih
          | null => simpa [goodValue] using ih
          | bool b => simpa [goodValue] using ih
          | num m => simpa [goodValue] using ih
          | arr xs => simpa [goodValue] using ih
          | obj gs => simpa [goodValue] using ih

/-- C1 (counterexample): the record `{"closed": "", "archived": false}` has
a `closed` field that is present but does not equal `false`, so the
claimed filter excludes it, yet `filter_current_markets` keeps it: the
empty string is falsy, and the code tests truthiness
(`not market.get("closed", True)`), not equality with `False`. -/
theorem filter_current_spec_counterexample :
    filter_current_markets
        [JsonValue.obj [("closed", .str ""), ("archived", .bool false)]] ≠
      List.filter specCurrentRecord
        [JsonValue.obj [("closed", .str ""), ("archived", .bool false)]] := by
  intro h
  rw [show filter_current_markets
        [JsonValue.obj [("closed", .str ""), ("archived", .bool false)]]
      = [JsonValue.obj [("closed", .str ""), ("archived", .bool false)]] from rfl,
    show List.filter specCurrentRecord
        [JsonValue.obj [("closed", .str ""), ("archived", .bool false)]]
      = [] from rfl] at h
  exact List.cons_ne_nil _ _ h

/-- C1 (amended): `filter_current_markets` is the order-preserving filter
keeping exactly the dict records whose `closed` and `archived` fields are
both present with falsy values under Python truthiness (a missing field
defaults to `True` and excludes the record); hence the output is a
sublist of the input, its length is at most the input's, and every kept
record has both fields present with falsy values. -/
theorem filter_current_truthiness (markets : List JsonValue) :
    filter_current_markets markets = markets.filter currentRecord ∧
    List.Sublist (filter_current_markets markets) markets ∧
    (filter_current_markets markets).length ≤ markets.length ∧
    ∀ m ∈ filter_current_markets markets, ∃ fs v w, m = JsonValue.obj fs ∧
      fs.lookup "closed" = some v ∧ truthy v = false ∧
      fs.lookup "archived" = some w ∧ truthy w = false := by
  have hf := filter_current_eq_filter markets
  refine ⟨hf, ?_, ?_, ?_⟩
  · rw [hf]; exact List.filter_sublist markets
  · rw [hf]; exact (List.filter_sublist markets).length_le
  · intro m hm
    rw [hf] at hm
    have hc : currentRecord m = true := List.of_mem_filter hm
    cases m with
    | obj fs =>
        simp only [currentRecord, Bool.and_eq_true, Bool.not_eq_true'] at hc
        obtain ⟨h1, h2⟩ := hc
        cases hv : fs.lookup "closed" with
        | none => rw [hv] at h1; simp [truthy] at h1
        | some v =>
            cases hw : fs.lookup "archived" with
            | none => rw [hw] at h2; simp [truthy] at h2
            | some w =>
                rw [hv] at h1
                rw [hw] at h2
                exact ⟨fs, v, w, rfl, hv, h1, hw, h2⟩
    | null => simp [currentRecord] at hc
    | bool b => simp [currentRecord] at hc
    | num n => simp [currentRecord] at hc
    | str s => simp [currentRecord] at hc
    | arr xs => simp [currentRecord] at hc

/-- Witness for C1 (amended) at the record
`{"closed": false, "archived": false}`, which the filter keeps. -/
theorem filter_current_truthiness_witness :
    ∃ fs v w,
      JsonValue.obj [("closed", JsonValue.bool false),
        ("archived", JsonValue.bool false)] = JsonValue.obj fs ∧
      fs.lookup "closed" = some v ∧ truthy v = false ∧
      fs.lookup "archived" = some w ∧ truthy w = false :=
  (filter_current_truthiness
      [JsonValue.obj [("closed", JsonValue.bool false),
        ("archived", JsonValue.bool false)]]).2.2.2
    (JsonValue.obj [("closed", JsonValue.bool false),
      ("archived", JsonValue.bool false)])
    (show _ ∈ [JsonValue.obj [("closed", JsonValue.bool false),
      ("archived", JsonValue.bool false)]] from List.mem_singleton.mpr rfl)

/-- C7: the Classifier is idempotent — filtering its own output changes
nothing. -/
theorem filter_current_idempotent (markets : List JsonValue) :
    filter_current_markets (filter_current_markets markets) =
      filter_current_markets markets := by
  rw [filter_current_eq_filter, filter_current_eq_filter markets,
    List.filter_filter]
  simp

/-- C2: `extract_market_names` maps each record to the first field among
`question`, `title`, `name`, `description`, `market_slug` whose value is
a string that is non-empty after trimming (contributing the trimmed
value), dropping records with no such field; a record with
`question=""` and `title="X"` yields `"X"`, and one with `title="  "`
and `name="Will it rain?"` yields `"Will it rain?"`. -/
theorem extract_names_preference :
    (∀ markets : List JsonValue,
        extract_market_names markets = markets.filterMap recordName) ∧
    (∀ fs : List (String × JsonValue),
        recordName (JsonValue.obj fs) =
          nameFields.findSome? (fun f => goodValue (fs.lookup f))) ∧
    extract_market_names
        [JsonValue.obj [("question", .str ""), ("title", .str "X")]] = ["X"] ∧
    extract_market_names
        [JsonValue.obj [("title", .str "  "), ("name", .str "Will it rain?")]] =
      ["Will it rain?"] :=
  ⟨extract_eq_filterMap, fun fs => findName_eq_findSome nameFields fs,
    by decide, by decide⟩

/-- C9: every extracted name is non-empty and carries no surrounding
whitespace — it is the trimmed value of the chosen field, a fixed point
of `strip`. -/
theorem extract_names_trimmed (markets : List JsonValue) (n : String)
    (h : n ∈ extract_market_names markets) : n ≠ "" ∧ pyStrip n = n := by
  rw [extract_eq_filterMap] at h
  obtain ⟨m, _, hm⟩ := List.mem_filterMap.mp h
  cases m with
  | obj fs => exact findName_some hm
  | null => simp [recordName] at hm
  | bool b => simp [recordName] at hm
  | num k => simp [recordName] at hm
  | str s => simp [recordName] at hm
  | arr xs => simp [recordName] at hm

/-- Witness for C9: the record `{"question": " hi "}` yields the trimmed
name `"hi"`. -/
theorem extract_names_trimmed_witness : "hi" ≠ "" ∧ pyStrip "hi" = "hi" :=
  extract_names_trimmed [JsonValue.obj [("question", JsonValue.str " hi ")]]
    "hi" (by decide)

/-- C10: `extract_market_names` is total over heterogeneous lists (it is a
Lean function, so it never fails): an element that is not a mapping is
silently skipped, contributing no name, and the result only depends on
the mapping elements. -/
theorem extract_names_skips_non_mappings :
    (∀ (v : JsonValue) (markets : List JsonValue), isMapping v = false →
        extract_market_names (v :: markets) = extract_market_names markets) ∧
    (∀ markets : List JsonValue,
        extract_market_names markets =
          extract_market_names (markets.filter isMapping)) := by
  constructor
  · intro v markets hv
    cases v with
    | obj fs => simp [isMapping] at hv
    | null => rfl
    | bool b => rfl
    | num n => rfl
    | str s => rfl
    | arr xs => rfl
  · intro markets
    induction markets with
    | nil => rfl
    | cons m rest ih =>
        cases m with
        | obj fs =>
            rw [List.filter_cons_of_pos (by rfl)]
            cases hf : findName nameFields fs with
            | none => simp [extract_market_names, hf, ih]
            | some n => simp [extract_market_names, hf, ih]
        | null => simpa [extract_market_names, List.filter_cons, isMapping] using ih
        | bool b => simpa [extract_market_names, List.filter_cons, isMapping] using ih
        | num n => simpa [extract_market_names, List.filter_cons, isMapping] using ih
        | str s => simpa [extract_market_names, List.filter_cons, isMapping] using ih
        | arr xs => simpa [extract_market_names, List.filter_cons, isMapping] using ih

/-- Witness for C10: a bare number contributes no name. -/
theorem extract_names_skips_non_mappings_witness :
    extract_market_names [JsonValue.num 3] = extract_market_names [] :=
  extract_names_skips_non_mappings.1 (JsonValue.num 3) [] rfl

/-! ### Paginator -/

theorem fetchLoop_calls_le (t : Transport) :
    ∀ (fuel : Nat) (c : JsonValue) (pc : Nat) (acc : List JsonValue),
      (fetchLoop t fuel c pc acc).2 ≤ fuel := by
  intro fuel
  induction fuel with
  | zero => intro c pc acc; exact Nat.le_refl 0
  | succ fuel ih =>
      intro c pc acc
      rw [fetchLoop]
      cases ht : t pc c with
      | fault => simp [ht]
      | ok resp =>
          cases hd : dataOf resp with
          | none => simp [ht, hd]
          | some d =>
              cases he : pyExtend acc d with
              | none => simp [ht, hd, he]
              | some acc' =>
                  cases hn : nextCursorOf resp with
                  | none => simp [ht, hd, he, hn]
                  | some nc =>
                      cases hcond : (!truthy nc || jeq nc c) with
                      | true => simp [ht, hd, he, hn, hcond]
                      | false =>
                          have hrec := ih nc (pc + 1) acc'
                          simp [ht, hd, he, hn, hcond]
                          omega

theorem fetchLoop_calls_full (t : Transport)
    (hT : ∀ (k : Nat) (c : JsonValue), ∃ resp recs nc, t k c = .ok resp ∧
      dataOf resp = some (.arr recs) ∧ nextCursorOf resp = some nc ∧
      truthy nc = true ∧ nc ≠ c) :
    ∀ (fuel : Nat) (c : JsonValue) (pc : Nat) (acc : List JsonValue),
      (fetchLoop t fuel c pc acc).2 = fuel := by
  intro fuel
  induction fuel with
  | zero => intro c pc acc; rfl
  | succ fuel ih =>
      intro c pc acc
      obtain ⟨resp, recs, nc, hr, hd, hn, htr, hne⟩ := hT pc c
      rw [fetchLoop]
      simp only [hr, hd, pyExtend, pyItems, Option.map_some', hn]
      rw [show (!truthy nc || jeq nc c) = false by
        rw [htr, jeq_eq_false_of_ne hne]; rfl]
      simp [ih]

theorem fetchLoop_append (t : Transport) :
    ∀ (fuel : Nat) (c : JsonValue) (pc : Nat) (acc : List JsonValue),
      (fetchLoop t fuel c pc acc).1 = acc ++ (fetchLoop t fuel c pc []).1 ∧
      (fetchLoop t fuel c pc acc).2 = (fetchLoop t fuel c pc []).2 := by
  intro fuel
  induction fuel with
  | zero => intro c pc acc; simp [fetchLoop]
  | succ fuel ih =>
      intro c pc acc
      simp only [fetchLoop]
      cases ht : t pc c with
      | fault => simp [ht]
      | ok resp =>
          cases hd : dataOf resp with
          | none => simp [ht, hd]
          | some d =>
              cases hi : pyItems d with
              | none => simp [ht, hd, pyExtend, hi]
              | some xs =>
                  cases hn : nextCursorOf resp with
                  | none =>
                      simp [ht, hd, pyExtend, hi, Option.map_some', hn]
                  | some nc =>
                      cases hcond : (!truthy nc || jeq nc c) with
                      | true =>
                          simp [ht, hd, pyExtend, hi, Option.map_some', hn, hcond]
                      | false =>
                          have h1 := ih nc (pc + 1) (acc ++ xs)
                          have h2 := ih nc (pc + 1) xs
                          simp only [ht, hd, pyExtend, hi, Option.map_some',
                            List.nil_append, hn, hcond, Bool.false_eq_true,
                            if_false]
                          constructor
                          · simp [h1.1, h2.1, List.append_assoc]
                          · simp [h1.2, h2.2]

/-- C3: a transport-level fault (an `Exception` from the page call) or a
malformed response (not a dict containing `"data"`) makes the loop stop
immediately after that single call and return exactly the records
accumulated so far; the fault never escapes (`fetch_all_markets` is a
total function in this model, the `except` on line 67 and the `else`
branch on line 63 absorbing both cases). In particular a bad first page
yields the empty result. -/
theorem fetch_stops_on_bad_page :
    (∀ (t : Transport) (fuel : Nat) (c : JsonValue) (pc : Nat)
        (acc : List JsonValue),
        (t pc c = .fault ∨ ∃ resp, t pc c = .ok resp ∧ dataOf resp = none) →
        fetchLoop t (fuel + 1) c pc acc = (acc, 1)) ∧
    (∀ (t : Transport) (max_pages : Nat),
        (t 0 initCursor = .fault ∨
          ∃ resp, t 0 initCursor = .ok resp ∧ dataOf resp = none) →
        fetch_all_markets t max_pages = []) := by
  have H : ∀ (t : Transport) (fuel : Nat) (c : JsonValue) (pc : Nat)
      (acc : List JsonValue),
      (t pc c = .fault ∨ ∃ resp, t pc c = .ok resp ∧ dataOf resp = none) →
      fetchLoop t (fuel + 1) c pc acc = (acc, 1) := by
    intro t fuel c pc acc h
    rw [fetchLoop]
    rcases h with h | ⟨resp, hr, hd⟩
    · rw [h]
    · simp only [hr, hd]
  refine ⟨H, ?_⟩
  intro t mp h
  cases mp with
  | zero => rfl
  | succ k =>
      show (fetchLoop t (k + 1) initCursor 0 []).1 = []
      rw [H t k initCursor 0 [] h]

/-- Witness for C3: a transport that always faults yields an empty result. -/
theorem fetch_stops_on_bad_page_witness :
    fetch_all_markets (fun _ _ => .fault) 5 = [] :=
  fetch_stops_on_bad_page.2 (fun _ _ => .fault) 5 (Or.inl rfl)

/-- C4: the loop performs at most `max_pages` page fetches (and always
terminates, being structurally recursive on the remaining page budget);
against a transport that on every call returns a well-formed page whose
next token is truthy and different from the cursor just used, it
performs exactly `max_pages` fetches. -/
theorem fetch_pagination_cap (t : Transport) (max_pages : Nat) :
    fetchCalls t max_pages ≤ max_pages ∧
    ((∀ (k : Nat) (c : JsonValue), ∃ resp recs nc, t k c = .ok resp ∧
        dataOf resp = some (.arr recs) ∧ nextCursorOf resp = some nc ∧
        truthy nc = true ∧ nc ≠ c) →
      fetchCalls t max_pages = max_pages) :=
  ⟨fetchLoop_calls_le t max_pages initCursor 0 [],
    fun hT => fetchLoop_calls_full t hT max_pages initCursor 0 []⟩

/-- Witness for C4: a transport alternating between cursors `"A"` and
`"B"` is fetched exactly `max_pages = 3` times. -/
theorem fetch_pagination_cap_witness :
    fetchCalls (fun _ c => .ok (.obj [("data", .arr []),
      ("next_cursor", if jeq c (.str "A") then .str "B" else .str "A")])) 3 = 3 :=
  (fetch_pagination_cap _ 3).2 (by
    intro k c
    refine ⟨_, [], _, rfl, rfl, rfl, ?_, ?_⟩
    · cases hc : jeq c (JsonValue.str "A") with
      | true => rfl
      | false => rfl
    · cases hc : jeq c (JsonValue.str "A") with
      | true =>
          have hce : c = JsonValue.str "A" := (jeq_iff _ _).mp hc
          show JsonValue.str "B" ≠ c
          rw [hce]
          intro h
          injection h with h'
          exact absurd h' (by decide)
      | false =>
          show JsonValue.str "A" ≠ c
          intro h
          rw [← h, jeq_self] at hc
          exact Bool.noConfusion hc)

/-- C5: when a fetched page is well formed but its continuation token is
absent (missing or `None`), empty, or equal to the cursor just used, the
loop appends that page's records and stops: exactly one fetch happens in
that invocation, so the cursor is never re-fetched. -/
theorem fetch_stops_on_stale_cursor (t : Transport) (fuel : Nat)
    (c : JsonValue) (pc : Nat) (acc : List JsonValue) (resp : JsonValue)
    (recs : List JsonValue)
    (hresp : t pc c = .ok resp) (hdata : dataOf resp = some (.arr recs))
    (hnc : nextCursorOf resp = none ∨ nextCursorOf resp = some .null ∨
      nextCursorOf resp = some (.str "") ∨ nextCursorOf resp = some c) :
    fetchLoop t (fuel + 1) c pc acc = (acc ++ recs, 1) := by
  rw [fetchLoop]
  simp only [hresp, hdata, pyExtend, pyItems, Option.map_some']
  rcases hnc with h | h | h | h <;> simp [h, truthy, jeq_self]

/-- Witness for C5: a page whose `next_cursor` equals the sentinel cursor
just used is fetched once, its records kept, and the loop stops. -/
theorem fetch_stops_on_stale_cursor_witness :
    fetchLoop (fun _ _ => .ok (.obj [("data", .arr [.num 7]),
      ("next_cursor", .str "MA==")])) 1 initCursor 0 [] = ([.num 7], 1) :=
  fetch_stops_on_stale_cursor _ 0 initCursor 0 [] _ [.num 7] rfl rfl
    (.inr (.inr (.inr rfl)))

/-- C6: the accumulated result is always the pending accumulator followed
by what the remaining loop collects (insertion order preserved, lengths
adding up); and in the two-page scenario — page 1 with two records and
`next_cursor="B"`, page 2 with one record and no `next_cursor` — the
result is the three records in order after exactly two fetches. -/
theorem fetch_result_concatenation :
    (∀ (t : Transport) (fuel : Nat) (c : JsonValue) (pc : Nat)
        (acc : List JsonValue),
        (fetchLoop t fuel c pc acc).1 = acc ++ (fetchLoop t fuel c pc []).1 ∧
        ((fetchLoop t fuel c pc acc).1).length =
          acc.length + ((fetchLoop t fuel c pc []).1).length) ∧
    fetch_all_markets
        (fun k _ => if k = 0 then
          .ok (.obj [("data", .arr [.obj [("id", .num 1)], .obj [("id", .num 2)]]),
            ("next_cursor", .str "B")])
          else .ok (.obj [("data", .arr [.obj [("id", .num 3)]])])) 100 =
      [.obj [("id", .num 1)], .obj [("id", .num 2)], .obj [("id", .num 3)]] ∧
    fetchCalls
        (fun k _ => if k = 0 then
          .ok (.obj [("data", .arr [.obj [("id", .num 1)], .obj [("id", .num 2)]]),
            ("next_cursor", .str "B")])
          else .ok (.obj [("data", .arr [.obj [("id", .num 3)]])])) 100 = 2 := by
  refine ⟨fun t fuel c pc acc => ⟨(fetchLoop_append t fuel c pc acc).1, ?_⟩, rfl, rfl⟩
  rw [(fetchLoop_append t fuel c pc acc).1, List.length_append]

/-! ### Exit codes -/

/-- C8: `main` returns 0 on success; 1 when zero records are fetched and,
in `--current` mode, when zero records survive filtering; 130 when a
`KeyboardInterrupt` reaches the top level (including one raised inside a
step, since line 67's `except Exception` does not catch it); and any
other unexpected fault is caught at top level and mapped to 1 instead of
escaping. -/
theorem main_exit_codes :
    (∀ (current : Bool) (s1 s2 : PyOutcome Unit),
        mainFn (.ok []) current s1 s2 = 1) ∧
    (∀ (ms : List JsonValue) (s1 s2 : PyOutcome Unit),
        filter_current_markets ms = [] → mainFn (.ok ms) true s1 s2 = 1) ∧
    (∀ (current : Bool) (s1 s2 : PyOutcome Unit),
        mainFn .interrupt current s1 s2 = 130) ∧
    (∀ (ms : List JsonValue) (s2 : PyOutcome Unit), ms ≠ [] →
        mainFn (.ok ms) false .interrupt s2 = 130) ∧
    (∀ (current : Bool) (s1 s2 : PyOutcome Unit),
        mainFn .exn current s1 s2 = 1) ∧
    (∀ (ms : List JsonValue) (s2 : PyOutcome Unit), ms ≠ [] →
        mainFn (.ok ms) false .exn s2 = 1) ∧
    (∀ ms : List JsonValue, ms ≠ [] →
        mainFn (.ok ms) false (.ok ()) (.ok ()) = 0) ∧
    (∀ ms : List JsonValue, filter_current_markets ms ≠ [] →
        mainFn (.ok ms) true (.ok ()) (.ok ()) = 0) := by
  refine ⟨fun current s1 s2 => rfl, ?_, fun current s1 s2 => rfl, ?_,
    fun current s1 s2 => rfl, ?_, ?_, ?_⟩
  · intro ms s1 s2 h
    cases ms with
    | nil => rfl
    | cons m rest => simp [mainFn, mainBody, h]
  · intro ms s2 h
    cases ms with
    | nil => exact absurd rfl h
    | cons m rest => rfl
  · intro ms s2 h
    cases ms with
    | nil => exact absurd rfl h
    | cons m rest => rfl
  · intro ms h
    cases ms with
    | nil => exact absurd rfl h
    | cons m rest => rfl
  · intro ms h
    cases ms with
    | nil => exact absurd rfl h
    | cons m rest =>
        cases hf : filter_current_markets (m :: rest) with
        | nil => exact absurd hf h
        | cons b bl => simp [mainFn, mainBody, hf]

/-- Witness for C8: with one record fetched and both saves succeeding,
`main` returns 0. -/
theorem main_exit_codes_witness :
    mainFn (.ok [JsonValue.null]) false (.ok ()) (.ok ()) = 0 :=
  main_exit_codes.2.2.2.2.2.2.1 [JsonValue.null] (by simp)
